import Mathlib

/-!
Shallow embedding of `src/assert_eq_size.rs` from the static-assertions
crate: three macros (`assert_eq_size`, `assert_eq_size_ptr`,
`assert_eq_size_val`) whose expansions make the Rust compiler check that
a list of types (or the types behind a list of expressions) all have the
same in-memory size.

The embedding models:
* Rust types and their sizes under the layout rules (`RTy`, `size_of`);
* the token-level macro matcher `$x, $($xs),+ $(,)*` (`matchArgs`);
* the expanded code as a small AST (`Stmt`, `ClosureBody`, `Item`);
* the compile-time check the expansion triggers (`checkStmt`: a
  `mem::transmute::<S, T>` mention type-checks iff `size_of S = size_of T`);
* the runtime semantics of the expansion (`execStmt`, `execBody`):
  creating a closure runs nothing, `mem::forget` suppresses the drop;
* which operands a statement moves out of (`consumesStmt`).
-/

namespace StaticAssertions

/-- Rust types that can appear as macro arguments: the primitive unsigned
integers, fixed-size arrays `[T; N]`, two-field tuples, shared references,
and user-declared nominal types with a given size, alignment (stored as
`align - 1` so it is always positive) and Copy-ness. -/
inductive RTy : Type
  | u8 : RTy
  | u16 : RTy
  | u32 : RTy
  | u64 : RTy
  | array : RTy → Nat → RTy
  | pair : RTy → RTy → RTy
  | ref : RTy → RTy
  | decl : Nat → Nat → Nat → Bool → RTy
deriving DecidableEq

/-- Alignment of a type in bytes (64-bit target: references are 8 bytes,
8-aligned). Always positive. -/
def alignOf : RTy → Nat
  | .u8 => 1
  | .u16 => 2
  | .u32 => 4
  | .u64 => 8
  | .array t _ => alignOf t
  | .pair a b => max (alignOf a) (alignOf b)
  | .ref _ => 8
  | .decl _ _ al _ => al + 1

/-- Round `n` up to the next multiple of `a`. -/
def roundUp (n a : Nat) : Nat := ((n + a - 1) / a) * a

/-- `mem::size_of` for the modelled types: arrays are `len * size_of elem`,
tuples lay the two fields out in order with padding for the second field's
alignment and round the total up to the tuple's alignment. -/
def size_of : RTy → Nat
  | .u8 => 1
  | .u16 => 2
  | .u32 => 4
  | .u64 => 8
  | .array t n => n * size_of t
  | .pair a b =>
      roundUp (roundUp (size_of a) (alignOf b) + size_of b)
        (max (alignOf a) (alignOf b))
  | .ref _ => 8
  | .decl _ s _ _ => s

/-- Whether a type implements `Copy`: primitives and shared references do,
arrays and tuples do when their components do, a user-declared type carries
its own flag (a struct with no derives is not Copy). -/
def isCopy : RTy → Bool
  | .u8 => true
  | .u16 => true
  | .u32 => true
  | .u64 => true
  | .array t _ => isCopy t
  | .pair a b => isCopy a && isCopy b
  | .ref _ => true
  | .decl _ _ _ c => c

/-- A user-supplied operand binding: its identity and its Rust type. -/
structure Operand : Type where
  id : Nat
  ty : RTy
deriving DecidableEq

/-- Expressions appearing in the expanded code: either a user operand
written in the macro call, or `&e` wrapped around one by the expansion of
`assert_eq_size_val`. -/
inductive GExpr : Type
  | operand : Operand → GExpr
  | addrOf : GExpr → GExpr
deriving DecidableEq

/-- The Rust type of a generated expression. -/
def GExpr.typeOf : GExpr → RTy
  | .operand o => o.ty
  | .addrOf e => .ref e.typeOf

/-- The pointee type of a reference; `ptr::read`/`ptr::write` require their
argument to coerce to a raw pointer, i.e. to be a reference. -/
def derefTarget : RTy → Option RTy
  | .ref t => some t
  | _ => none

/-- How the scratch `copy` local leaves scope in the closure body:
`mem::forget(copy)` (what the macro writes) versus ordinary scope-end drop
(what Rust would do without the `forget`). -/
inductive Disposal : Type
  | forget : Disposal
  | scopeDrop : Disposal
deriving DecidableEq

/-- The body of the closure `assert_eq_size_ptr` generates:
`let mut copy = ptr::read($x); $(ptr::write(&mut copy,
mem::transmute(ptr::read($xs)));)+` followed by the disposal of `copy`. -/
structure ClosureBody : Type where
  x : GExpr
  xs : List GExpr
  disposal : Disposal
deriving DecidableEq

/-- Statements the macro expansions produce: `let _ =
$crate::_core::mem::transmute::<$x, $xs>;` (naming the transmute intrinsic
at a pair of types without calling it) and `let _ = || unsafe { ... };`
(creating, never invoking, a closure). -/
inductive Stmt : Type
  | letTransmuteFn : RTy → RTy → Stmt
  | letClosure : ClosureBody → Stmt
deriving DecidableEq

/-- Expansion of `assert_eq_size!($x:ty, $($xs:ty),+ $(,)*)`: one
`let _ = transmute::<$x, $xs>;` statement per later type, each comparing
that type against the first. -/
def expand_assert_eq_size (x : RTy) (xs : List RTy) : List Stmt :=
  xs.map fun t => .letTransmuteFn x t

/-- The closure body generated by `assert_eq_size_ptr`; the scratch copy is
discarded with `mem::forget`. -/
def ptrClosureBody (x : GExpr) (xs : List GExpr) : ClosureBody :=
  { x := x, xs := xs, disposal := .forget }

/-- Expansion of `assert_eq_size_ptr!($x:expr, $($xs:expr),+ $(,)*)`: a
single `let _ = || unsafe { ... };` statement holding the check body. -/
def expand_assert_eq_size_ptr (x : GExpr) (xs : List GExpr) : Stmt :=
  .letClosure (ptrClosureBody x xs)

/-- Expansion of `assert_eq_size_val!($x:expr, $($xs:expr),+ $(,)*)`: it
delegates to `assert_eq_size_ptr!(&$x, $(&$xs),+)`. -/
def expand_assert_eq_size_val (x : GExpr) (xs : List GExpr) : Stmt :=
  expand_assert_eq_size_ptr (.addrOf x) (xs.map .addrOf)

/-- A freestanding item `#[allow(dead_code, non_snake_case)] fn $label()
{ ... }`, produced by the labeled arm of `assert_eq_size`. -/
structure Item : Type where
  label : Nat
  body : List Stmt
deriving DecidableEq

/-- Expansion of the labeled arm `assert_eq_size!($label:ident; $($xs)+)`:
a never-called function named by the label whose body is the unlabeled
expansion. -/
def expandLabeled (label : Nat) (x : RTy) (xs : List RTy) : Item :=
  { label := label, body := expand_assert_eq_size x xs }

/-- `mem::transmute::<S, T>` type-checks exactly when the two types have
equal size; otherwise the compiler rejects the program. -/
def transmuteOk (s t : RTy) : Bool := size_of s == size_of t

/-- Does one `ptr::write(&mut copy, mem::transmute(ptr::read($xs_i)))`
type-check, given that `copy` has type `t0`? It needs `$xs_i` to be a
reference and the transmute from its pointee to `t0` to pass the size
check. -/
def checkWriteBack (t0 : RTy) (e : GExpr) : Bool :=
  match derefTarget e.typeOf with
  | some ti => transmuteOk ti t0
  | none => false

/-- Does a generated statement pass the compiler's type check?
For `let _ = transmute::<S, T>;` this is the transmute size check. For the
closure: `ptr::read($x)` needs `$x` to be a reference, fixing the scratch
type `T0`; each later write-back must then pass `checkWriteBack T0`. -/
def checkStmt : Stmt → Bool
  | .letTransmuteFn s t => transmuteOk s t
  | .letClosure b =>
      match derefTarget b.x.typeOf with
      | none => false
      | some t0 => b.xs.all (checkWriteBack t0)

/-- A statement list compiles when every statement does. -/
def checkStmts (l : List Stmt) : Bool := l.all checkStmt

/-- An item compiles when its body does; `#[allow(dead_code,
non_snake_case)]` silences the only lints the wrapper itself would raise. -/
def checkItem (i : Item) : Bool := checkStmts i.body

/-- Tokens of a macro invocation: an argument fragment (a `ty` or an
`expr`, depending on the macro) or a comma. -/
inductive Tok (α : Type) : Type
  | arg : α → Tok α
  | comma : Tok α
deriving DecidableEq

/-- Match the tail `$(, $xs)* $(,)*` of the argument pattern: after each
comma, a following argument extends the captured list; a single comma
right before end of input is matched by the trailing `$(,)*` repetition
(end of input is reached before any ambiguity can be raised). A comma
followed by another comma, however, leaves the nonterminal-blocked
repetition item (`$xs` expects a `ty`/`expr`) and the `$(,)*` token item
simultaneously live, which the host macro parser reports as a hard
local-ambiguity error — so such an invocation never matches, and two or
more trailing commas are rejected. -/
def matchTail {α : Type} : List (Tok α) → Option (List α)
  | [] => some []
  | .arg _ :: _ => none
  | .comma :: [] => some []
  | .comma :: .arg a :: rest => (matchTail rest).map fun l => a :: l
  | .comma :: .comma :: _ => none

/-- Match the full pattern `$x, $($xs),+ $(,)*` shared by all three macros:
a first argument, then at least one further argument, separated by commas,
then any number of trailing commas. Returns the captures on success. -/
def matchArgs {α : Type} : List (Tok α) → Option (α × List α)
  | [] => none
  | .comma :: _ => none
  | .arg x :: rest =>
      match matchTail rest with
      | some (a :: l) => some (x, a :: l)
      | _ => none

/-- The token stream of a call with arguments `x, xs₁, ..., xsₙ` followed by
`trailing` commas. -/
def tokensOf {α : Type} (x : α) (xs : List α) (trailing : Nat) :
    List (Tok α) :=
  .arg x :: (xs.flatMap fun a => [.comma, .arg a]) ++
    List.replicate trailing .comma

/-- Full `assert_eq_size!` invocation on a token stream: `none` when the
matcher rejects the call, otherwise whether the expansion compiles. -/
def invoke_assert_eq_size (toks : List (Tok RTy)) : Option Bool :=
  (matchArgs toks).map fun p => checkStmts (expand_assert_eq_size p.1 p.2)

/-- Full `assert_eq_size_ptr!` invocation on a token stream. -/
def invoke_assert_eq_size_ptr (toks : List (Tok GExpr)) : Option Bool :=
  (matchArgs toks).map fun p => checkStmt (expand_assert_eq_size_ptr p.1 p.2)

/-- Full `assert_eq_size_val!` invocation on a token stream. -/
def invoke_assert_eq_size_val (toks : List (Tok GExpr)) : Option Bool :=
  (matchArgs toks).map fun p => checkStmt (expand_assert_eq_size_val p.1 p.2)

/-- Full invocation of the labeled arm `assert_eq_size!($label; $($xs)+)`:
the label arm hands the tail tokens back to the unlabeled arm and wraps the
result in a `fn $label`. -/
def invokeLabeled (label : Nat) (toks : List (Tok RTy)) : Option Bool :=
  (matchArgs toks).map fun p => checkItem (expandLabeled label p.1 p.2)

/-- Observable runtime effects: evaluating a user operand, reading memory
(`ptr::read`), writing memory (`ptr::write`), and running a destructor. -/
inductive Effect : Type
  | evalOperand : Nat → Effect
  | readMem : Effect
  | writeMem : Effect
  | dropRun : Effect
deriving DecidableEq

/-- Effects of evaluating a generated expression: a user operand is
evaluated; `&e` evaluates `e` to take its address. -/
def evalEffects : GExpr → List Effect
  | .operand o => [.evalOperand o.id]
  | .addrOf e => evalEffects e

/-- Effects the closure body would have if it were invoked:
`ptr::read($x)` evaluates `$x` and reads memory; each
`ptr::write(&mut copy, mem::transmute(ptr::read($xs_i)))` evaluates
`$xs_i`, reads and writes memory; finally `mem::forget(copy)` runs no
destructor, while a plain scope end would drop `copy`. -/
def execBody (b : ClosureBody) : List Effect :=
  (evalEffects b.x ++ [.readMem]) ++
    (b.xs.flatMap fun e => evalEffects e ++ [.readMem, .writeMem]) ++
    (match b.disposal with
     | .forget => []
     | .scopeDrop => [.dropRun])

/-- Effects of actually executing a generated statement at runtime:
mentioning `transmute::<S, T>` as a value does nothing, and creating a
closure does not run its body. -/
def execStmt : Stmt → List Effect
  | .letTransmuteFn _ _ => []
  | .letClosure _ => []

/-- Operands a generated expression moves out of: using a non-Copy operand
by value consumes it; taking a reference `&e` consumes nothing. -/
def consumesExpr : GExpr → List Nat
  | .operand o => if isCopy o.ty then [] else [o.id]
  | .addrOf _ => []

/-- Operands a generated statement moves out of: a transmute mention names
no operand; creating the closure captures each operand the body uses by
value, moving it only if its type is not Copy. -/
def consumesStmt : Stmt → List Nat
  | .letTransmuteFn _ _ => []
  | .letClosure b => consumesExpr b.x ++ b.xs.flatMap consumesExpr

/-! Helper lemmas about the matcher and the checks. -/

theorem matchTail_replicate {α : Type} (k : Nat) :
    matchTail (List.replicate k (Tok.comma : Tok α)) =
      if k ≤ 1 then some [] else none := by
  match k with
  | 0 => rfl
  | 1 => rfl
  | n + 2 => rfl

theorem matchTail_cons_arg {α : Type} (a : α) (rest : List (Tok α)) :
    matchTail (Tok.comma :: Tok.arg a :: rest) =
      (matchTail rest).map fun l => a :: l := by
  simp [matchTail]

theorem matchTail_tokens {α : Type} (xs : List α) (k : Nat) :
    matchTail ((xs.flatMap fun a => [Tok.comma, Tok.arg a]) ++
        List.replicate k (Tok.comma : Tok α)) =
      if k ≤ 1 then some xs else none := by
  induction xs with
  | nil => simpa using matchTail_replicate k
  | cons a l ih =>
      have h : ((a :: l).flatMap fun b => [Tok.comma, Tok.arg b]) ++
          List.replicate k (Tok.comma : Tok α) =
          Tok.comma :: Tok.arg a ::
            ((l.flatMap fun b => [Tok.comma, Tok.arg b]) ++
              List.replicate k Tok.comma) := by
        simp
      rw [h, matchTail_cons_arg, ih]
      by_cases hk : k ≤ 1 <;> simp [hk]

theorem matchArgs_tokensOf_if {α : Type} (x a : α) (l : List α) (k : Nat) :
    matchArgs (tokensOf x (a :: l) k) =
      if k ≤ 1 then some (x, a :: l) else none := by
  by_cases hk : k ≤ 1 <;>
    simp [tokensOf, matchArgs, matchTail_cons_arg, matchTail_tokens, hk]

theorem matchArgs_tokensOf0 {α : Type} (x a : α) (l : List α) :
    matchArgs (tokensOf x (a :: l) 0) = some (x, a :: l) := by
  simpa using matchArgs_tokensOf_if x a l 0

theorem matchArgs_tokensOf1 {α : Type} (x a : α) (l : List α) :
    matchArgs (tokensOf x (a :: l) 1) = some (x, a :: l) := by
  simpa using matchArgs_tokensOf_if x a l 1

theorem checkStmts_expand (x : RTy) (xs : List RTy) :
    (checkStmts (expand_assert_eq_size x xs) = true) ↔
      ∀ t ∈ xs, size_of x = size_of t := by
  simp [checkStmts, expand_assert_eq_size, List.all_map, checkStmt,
    transmuteOk, List.all_eq_true, Function.comp]

theorem all_sizes_eq_iff (x : RTy) (xs : List RTy) :
    (∀ t ∈ xs, size_of x = size_of t) ↔
      ∀ a ∈ x :: xs, ∀ b ∈ x :: xs, size_of a = size_of b := by
  constructor
  · intro h a ha b hb
    have hax : size_of x = size_of a := by
      rcases List.mem_cons.mp ha with h1 | h1
      · rw [h1]
      · exact h a h1
    have hbx : size_of x = size_of b := by
      rcases List.mem_cons.mp hb with h1 | h1
      · rw [h1]
      · exact h b h1
    exact hax.symm.trans hbx
  · intro h t ht
    exact h x (List.mem_cons_self x xs) t (List.mem_cons_of_mem x ht)

theorem checkStmt_ptr_refs (i : Nat) (t0 : RTy) (ps : List (Nat × RTy)) :
    (checkStmt (expand_assert_eq_size_ptr (.operand ⟨i, .ref t0⟩)
        (ps.map fun p => .operand ⟨p.1, .ref p.2⟩)) = true) ↔
      ∀ p ∈ ps, size_of p.2 = size_of t0 := by
  have hr : checkStmt (expand_assert_eq_size_ptr (.operand ⟨i, .ref t0⟩)
      (ps.map fun p => .operand ⟨p.1, .ref p.2⟩)) =
      (ps.map fun p => GExpr.operand ⟨p.1, .ref p.2⟩).all (checkWriteBack t0) :=
    rfl
  rw [hr, List.all_eq_true]
  constructor
  · intro h p hp
    have h2 := h _ (List.mem_map_of_mem _ hp)
    simpa [checkWriteBack, GExpr.typeOf, derefTarget, transmuteOk] using h2
  · intro h e he
    rcases List.mem_map.mp he with ⟨p, hp, rfl⟩
    simpa [checkWriteBack, GExpr.typeOf, derefTarget, transmuteOk] using h p hp

theorem checkStmt_val (x : GExpr) (xs : List GExpr) :
    (checkStmt (expand_assert_eq_size_val x xs) = true) ↔
      ∀ e ∈ xs, size_of e.typeOf = size_of x.typeOf := by
  have hr : checkStmt (expand_assert_eq_size_val x xs) =
      (xs.map GExpr.addrOf).all (checkWriteBack x.typeOf) := rfl
  rw [hr, List.all_eq_true]
  constructor
  · intro h e he
    have h2 := h _ (List.mem_map_of_mem _ he)
    simpa [checkWriteBack, GExpr.typeOf, derefTarget, transmuteOk] using h2
  · intro h e he
    rcases List.mem_map.mp he with ⟨e1, he1, rfl⟩
    simpa [checkWriteBack, GExpr.typeOf, derefTarget, transmuteOk] using h e1 he1

theorem dropRun_not_mem_evalEffects (e : GExpr) :
    Effect.dropRun ∉ evalEffects e := by
  induction e with
  | operand o => simp [evalEffects]
  | addrOf e ih => simpa [evalEffects] using ih

theorem consumes_addrOf_map (l : List GExpr) :
    (l.map GExpr.addrOf).flatMap consumesExpr = [] := by
  induction l with
  | nil => rfl
  | cons a l ih => simp [consumesExpr, ih]

theorem consumes_ref_operands (ps : List (Nat × RTy)) :
    ((ps.map fun p => GExpr.operand ⟨p.1, .ref p.2⟩).flatMap consumesExpr)
      = [] := by
  induction ps with
  | nil => rfl
  | cons p l ih => simp [consumesExpr, isCopy, ih]

/-! The claims. -/

/-- Claim C1: for every list of `N ≥ 2` types, `assert_eq_size` compiles
exactly when all listed types have identical size — the check is
pairwise-complete across the whole set even though the expansion only
compares each later type against the first. -/
theorem assert_eq_size_compiles_iff_all_sizes_equal (x x1 : RTy)
    (xs : List RTy) :
    invoke_assert_eq_size (tokensOf x (x1 :: xs) 0) = some true ↔
      ∀ a ∈ x :: x1 :: xs, ∀ b ∈ x :: x1 :: xs, size_of a = size_of b := by
  rw [invoke_assert_eq_size, matchArgs_tokensOf0]
  simp only [Option.map_some', Option.some.injEq]
  exact (checkStmts_expand x (x1 :: xs)).trans (all_sizes_eq_iff x (x1 :: xs))

/-- Claim C2: `assert_eq_size_ptr` over reference expressions compiles
exactly when every dereferenced target type has identical size; in
particular a `&[u8; 4]` against a `&[u8; 16]` is rejected. -/
theorem assert_eq_size_ptr_compiles_iff_targets_equal (i : Nat) (t0 : RTy)
    (p1 : Nat × RTy) (ps : List (Nat × RTy)) :
    (invoke_assert_eq_size_ptr (tokensOf (.operand ⟨i, .ref t0⟩)
        ((p1 :: ps).map fun p => .operand ⟨p.1, .ref p.2⟩) 0) = some true ↔
      ∀ p ∈ p1 :: ps, size_of p.2 = size_of t0) ∧
    invoke_assert_eq_size_ptr (tokensOf (.operand ⟨0, .ref (.array .u8 4)⟩)
      [.operand ⟨1, .ref (.array .u8 16)⟩] 0) = some false := by
  constructor
  · rw [invoke_assert_eq_size_ptr]
    simp only [List.map_cons]
    rw [matchArgs_tokensOf0]
    simp only [Option.map_some', Option.some.injEq]
    have h := checkStmt_ptr_refs i t0 (p1 :: ps)
    simp only [List.map_cons] at h
    exact h
  · rfl

/-- Claim C3: `assert_eq_size_val` over operands `e1..eN` expands to
exactly `assert_eq_size_ptr` over `&e1..&eN`, so the two produce the same
accept/reject outcome, which is acceptance exactly when all operand types
have equal size. -/
theorem assert_eq_size_val_delegates_to_ptr (x : GExpr) (xs : List GExpr) :
    expand_assert_eq_size_val x xs =
        expand_assert_eq_size_ptr (.addrOf x) (xs.map .addrOf) ∧
    checkStmt (expand_assert_eq_size_val x xs) =
        checkStmt (expand_assert_eq_size_ptr (.addrOf x) (xs.map .addrOf)) ∧
    (checkStmt (expand_assert_eq_size_val x xs) = true ↔
        ∀ e ∈ xs, size_of e.typeOf = size_of x.typeOf) :=
  ⟨rfl, rfl, checkStmt_val x xs⟩

/-- Claim C4: the body of the pointer-based check is never executed at
runtime: the expansion (of the pointer and of the value form) has no
runtime effects at all — no operand evaluation, no reads, no writes —
although the closure body, were it ever invoked, would read memory. -/
theorem ptr_check_body_never_runs (x : GExpr) (xs : List GExpr) :
    execStmt (expand_assert_eq_size_ptr x xs) = [] ∧
    execStmt (expand_assert_eq_size_val x xs) = [] ∧
    Effect.readMem ∈ execBody (ptrClosureBody x xs) := by
  refine ⟨rfl, rfl, ?_⟩
  simp [execBody, ptrClosureBody]

/-- Claim C5: the scratch copy in the pointer-based check is discarded via
`mem::forget`, so even a hypothetical run of the closure body executes no
destructor — whereas an ordinary scope-end drop of the copy would. -/
theorem ptr_check_scratch_forgotten_not_dropped (x : GExpr)
    (xs : List GExpr) :
    (ptrClosureBody x xs).disposal = Disposal.forget ∧
    Effect.dropRun ∉ execBody (ptrClosureBody x xs) ∧
    Effect.dropRun ∈ execBody (ClosureBody.mk x xs Disposal.scopeDrop) := by
  refine ⟨rfl, ?_, ?_⟩
  · simp [execBody, ptrClosureBody, dropRun_not_mem_evalEffects]
  · simp [execBody]

/-- Claim C6: neither the value-based nor the pointer-based size assertion
consumes any operand: the value form takes only references to its
operands (whatever their types, Copy or not), and the pointer form uses
reference-typed operands, which are Copy — so every original binding
remains usable afterwards. -/
theorem size_assertions_consume_no_operand (x : GExpr) (xs : List GExpr)
    (i : Nat) (t : RTy) (ps : List (Nat × RTy)) :
    consumesStmt (expand_assert_eq_size_val x xs) = [] ∧
    consumesStmt (expand_assert_eq_size_ptr (.operand ⟨i, .ref t⟩)
      (ps.map fun p => .operand ⟨p.1, .ref p.2⟩)) = [] := by
  constructor
  · show consumesExpr (.addrOf x) ++
      (xs.map GExpr.addrOf).flatMap consumesExpr = []
    rw [consumes_addrOf_map]
    rfl
  · show consumesExpr (.operand ⟨i, .ref t⟩) ++
      (ps.map fun p => GExpr.operand ⟨p.1, .ref p.2⟩).flatMap consumesExpr
      = []
    rw [consumes_ref_operands]
    rfl

/-- Claim C7: the labeled freestanding form of `assert_eq_size`, which
wraps the check in a named never-invoked function, produces exactly the
same accept/reject outcome as the unlabeled form, for every label and
every token list. -/
theorem labeled_form_same_outcome (label : Nat) (toks : List (Tok RTy)) :
    invokeLabeled label toks = invoke_assert_eq_size toks := rfl

/-- Claim C8: all three call shapes accept one trailing comma after the
final argument, and the accept/reject outcome is unchanged by it. -/
theorem trailing_comma_accepted (x x1 : RTy) (xs : List RTy)
    (e e1 : GExpr) (es : List GExpr) :
    (invoke_assert_eq_size (tokensOf x (x1 :: xs) 1) =
        invoke_assert_eq_size (tokensOf x (x1 :: xs) 0) ∧
      (invoke_assert_eq_size (tokensOf x (x1 :: xs) 1)).isSome = true) ∧
    (invoke_assert_eq_size_ptr (tokensOf e (e1 :: es) 1) =
        invoke_assert_eq_size_ptr (tokensOf e (e1 :: es) 0) ∧
      (invoke_assert_eq_size_ptr (tokensOf e (e1 :: es) 1)).isSome = true) ∧
    (invoke_assert_eq_size_val (tokensOf e (e1 :: es) 1) =
        invoke_assert_eq_size_val (tokensOf e (e1 :: es) 0) ∧
      (invoke_assert_eq_size_val (tokensOf e (e1 :: es) 1)).isSome = true) := by
  refine ⟨⟨?_, ?_⟩, ⟨?_, ?_⟩, ⟨?_, ?_⟩⟩ <;>
    simp [invoke_assert_eq_size, invoke_assert_eq_size_ptr,
      invoke_assert_eq_size_val, matchArgs_tokensOf0, matchArgs_tokensOf1]

/-- Claim C9: the type-based assertion is permutation-invariant — any
reordering of the type list yields the same accept/reject outcome, even
though the expansion compares every later type against the first. -/
theorem assert_eq_size_perm_invariant (x y : RTy) (xs ys : List RTy)
    (h : (x :: xs).Perm (y :: ys)) :
    checkStmts (expand_assert_eq_size x xs) =
      checkStmts (expand_assert_eq_size y ys) := by
  have h1 := (checkStmts_expand x xs).trans (all_sizes_eq_iff x xs)
  have h2 := (checkStmts_expand y ys).trans (all_sizes_eq_iff y ys)
  have hiff : (∀ a ∈ x :: xs, ∀ b ∈ x :: xs, size_of a = size_of b) ↔
      (∀ a ∈ y :: ys, ∀ b ∈ y :: ys, size_of a = size_of b) := by
    constructor
    · intro hp a ha b hb
      exact hp a (h.mem_iff.mpr ha) b (h.mem_iff.mpr hb)
    · intro hp a ha b hb
      exact hp a (h.mem_iff.mp ha) b (h.mem_iff.mp hb)
  rw [Bool.eq_iff_iff]
  exact h1.trans (hiff.trans h2.symm)

/-- Witness for Claim C9 at a concrete permutation: swapping the two
equal-sized types `u16` and `(u8, u8)` leaves the outcome unchanged. -/
theorem assert_eq_size_perm_invariant_holds :
    ((RTy.u16 :: [RTy.pair RTy.u8 RTy.u8]).Perm
        (RTy.pair RTy.u8 RTy.u8 :: [RTy.u16])) ∧
    checkStmts (expand_assert_eq_size RTy.u16 [RTy.pair RTy.u8 RTy.u8]) =
      checkStmts (expand_assert_eq_size (RTy.pair RTy.u8 RTy.u8)
        [RTy.u16]) :=
  ⟨by decide, assert_eq_size_perm_invariant _ _ _ _ (by decide)⟩

end StaticAssertions
